import Mathlib

/-!
Verification of `blog_publisher.py`: a shallow embedding of the content
pipeline (sanitize, LLM rewrite, normalize, link-enrich, tag-resolve,
publish) and proofs about the claims of its specification.

Python strings are modelled as `List Char`. The external HTTP
collaborators (the LLaMA chat service and the WordPress REST API) are
modelled by an explicit environment `Env` of their responses, and the
endpoint handler returns both its HTTP response and the trace of
external calls it made, in order.
-/

namespace BlogPublisher

/-- Characters that Python `str.strip()` / `str.split()` treat as
whitespace (the ASCII subset relevant here). -/
def pyIsSpace (c : Char) : Bool :=
  c = ' ' || c = '\t' || c = '\n' || c = '\r' || c = '\x0b' || c = '\x0c'

/-- The scan of Python `s.replace(p, r)`, written with a structural fuel
argument: every step consumes at least one character of the remaining
text, so `s.length` steps always suffice and the fuel-exhausted arm is
never reached from `pyReplace`. -/
def pyReplaceGo (p r : List Char) : Nat → List Char → List Char
  | _, [] => []
  | 0, s => s
  | fuel + 1, c :: t =>
    if p ≠ [] ∧ p.isPrefixOf (c :: t) then
      r ++ pyReplaceGo p r fuel ((c :: t).drop p.length)
    else
      c :: pyReplaceGo p r fuel t

/-- Python `s.replace(p, r)`: replace every non-overlapping occurrence of
`p` in `s` by `r`, scanning left to right; replacement text is not
rescanned. (All patterns used by the program are non-empty; for an empty
pattern this model leaves the string unchanged.) -/
def pyReplace (p r s : List Char) : List Char :=
  pyReplaceGo p r s.length s

/-- Python `s.strip()`: drop leading and trailing whitespace. -/
def pyStrip (s : List Char) : List Char :=
  List.rdropWhile pyIsSpace (s.dropWhile pyIsSpace)

/-- The first denylisted phrase of `clean_content` (line 32). -/
def phrase1 : List Char := "Here is the formatted blog post:".toList

/-- The second denylisted phrase of `clean_content` (line 33). -/
def phrase2 : List Char := "Let me know if you need any further assistance!".toList

/-- The fixed denylist of `clean_content` (blog_publisher.py, lines 31-34). -/
def unwanted_phrases : List (List Char) :=
  [phrase1, phrase2]

/-- `clean_content` (lines 27-37): remove each unwanted phrase wherever it
occurs (one `str.replace` pass per phrase, in denylist order), then strip
surrounding whitespace. -/
def clean_content (content : List Char) : List Char :=
  pyStrip (unwanted_phrases.foldl (fun acc phrase => pyReplace phrase [] acc) content)

/-- The instruction prompt `process_with_llama3` builds around the text
(the f-string at lines 43-51). -/
def llamaPrompt (text : List Char) : List Char :=
  "\n    Format the following blog post:\n    - Add appropriate <p> tags.\n    - Detect and format list items.\n    - Do not create your own title.\n\n    Blog Content:\n    ".toList
    ++ text ++ "\n    ".toList

/-- `process_with_llama3` (lines 39-59), with the chat response modelled by
its optional message content: when the response carries a `message`, its
content gets a newline inserted after every closing paragraph tag;
otherwise the function returns `None`. -/
def process_with_llama3 (messageContent : Option (List Char)) : Option (List Char) :=
  match messageContent with
  | some content => some (pyReplace "</p>".toList "</p>\n".toList content)
  | none => none

/-- Helper for `pySplit`: accumulates the current word in reverse. -/
def pySplitAux : List Char → List Char → List (List Char)
  | [], acc => if acc.isEmpty then [] else [acc.reverse]
  | c :: t, acc =>
    if pyIsSpace c then
      if acc.isEmpty then pySplitAux t [] else acc.reverse :: pySplitAux t []
    else
      pySplitAux t (c :: acc)

/-- Python `s.split()` with no separator argument: the maximal
whitespace-free runs of `s`, in order, with no empty words. -/
def pySplit (s : List Char) : List (List Char) :=
  pySplitAux s []

/-- Modelled from the spec: `nltk.word_tokenize` is an external library
routine, not part of src. The spec describes the normalizer as a pass that
"tokenizes into words" and rejoins them; tokenization is modelled as
splitting the text into maximal whitespace-free runs. -/
def word_tokenize (s : List Char) : List (List Char) :=
  pySplit s

/-- `spell_check` (lines 61-63): tokenize, rejoin with single spaces. -/
def spell_check (text : List Char) : List Char :=
  List.intercalate " ".toList (word_tokenize text)

/-- A word character in the sense of the regex metacharacter `\b`. -/
def isWordChar (c : Char) : Bool :=
  c.isAlphanum || c = '_'

/-- Case-insensitive prefix test (ASCII lowering, matching what
`re.IGNORECASE` does on the ASCII data involved here). -/
def ciPrefix (p s : List Char) : Bool :=
  (p.map Char.toLower).isPrefixOf (s.map Char.toLower)

/-- Whether a scan position sits on a word boundary when the character
before it is a word character: true at end of string or before a
non-word character. -/
def atBoundary : List Char → Bool
  | [] => true
  | c :: _ => !isWordChar c

/-- The replacement template of `insert_internal_links`:
`<a href="URL">TITLE</a>`, with the title as spelled in the link index.
`re.sub` would process backslash escapes inside the replacement string, so
this literal concatenation is faithful only for backslash-free titles and
URLs; theorems about `subTitle` carry that restriction as hypotheses. -/
def anchorFor (title url : List Char) : List Char :=
  "<a href=\"".toList ++ url ++ "\">".toList ++ title ++ "</a>".toList

/-- The scan of one `re.sub` pass, with a structural fuel argument (each
step consumes at least one character, so `s.length` fuel suffices). -/
def subTitleGo (title url : List Char) : Nat → Bool → List Char → List Char
  | _, _, [] => []
  | 0, _, s => s
  | fuel + 1, prevW, c :: t =>
    if title ≠ [] ∧ ciPrefix title (c :: t) ∧ prevW = false
        ∧ atBoundary ((c :: t).drop title.length) then
      anchorFor title url ++ subTitleGo title url fuel true ((c :: t).drop title.length)
    else
      c :: subTitleGo title url fuel (isWordChar c) t

/-- One `re.sub` pass of `insert_internal_links` (line 79) — the pattern
is the title interpolated, unescaped, between two word-boundary anchors,
with `re.IGNORECASE`. The model matches the title literally, which is
faithful exactly when the title is non-empty and made of word characters
(letters, digits, underscore: no regex metacharacters, and the boundary
anchors then demand a non-word neighbour on each side) on ASCII data
(where ASCII case folding and the ASCII word class agree with the regex
engine); titles with regex metacharacters, or empty rendered titles,
behave differently in the program, so every theorem that quantifies over
titles carries these restrictions as hypotheses. Scan left to right;
wherever the title matches case-insensitively flanked by word boundaries,
emit the anchor and continue after the match; `prevW` records whether the
character just before the scan position is a word character. -/
def subTitle (title url : List Char) (prevW : Bool) (s : List Char) : List Char :=
  subTitleGo title url s.length prevW s

/-- `insert_internal_links` (lines 77-80): one substitution pass per
link-index entry, applied successively. -/
def insert_internal_links (content : List Char) (links : List (List Char × List Char)) :
    List Char :=
  links.foldl (fun acc entry => subTitle entry.1 entry.2 false acc) content

/-- Insert into a Python-dict-like association list: an existing key keeps
its position and takes the new value, a new key is appended. -/
def dictInsert (d : List (List Char × List Char)) (k v : List Char) :
    List (List Char × List Char) :=
  match d with
  | [] => [(k, v)]
  | (k₀, v₀) :: rest => if k₀ = k then (k, v) :: rest else (k₀, v₀) :: dictInsert rest k v

/-- Build a Python dict (as an association list) from key-value pairs. -/
def buildDict (pairs : List (List Char × List Char)) : List (List Char × List Char) :=
  pairs.foldl (fun d kv => dictInsert d kv.1 kv.2) []

/-- The JSON-ish values the CMS can return, with Python truthiness. -/
inductive PyVal where
  | pynone
  | bool (b : Bool)
  | int (n : Int)
  | str (s : List Char)
  | list (xs : List PyVal)
  | dict (kvs : List (List Char × PyVal))

/-- Python truthiness of a `PyVal`. -/
def pyTruthy : PyVal → Bool
  | .pynone => false
  | .bool b => b
  | .int n => n != 0
  | .str s => !s.isEmpty
  | .list xs => !xs.isEmpty
  | .dict kvs => !kvs.isEmpty

/-- A tag-search response: HTTP status, and the `id` field of each tag
object in the JSON body, in order. -/
structure TagResp where
  status : Nat
  ids : List Int

/-- Responses of the external collaborators for one request. -/
structure Env where
  /-- The chat response `message.content`, when the response has a `message`. -/
  llamaMessage : Option (List Char)
  /-- Status of `GET /wp-json/wp/v2/posts?per_page=100`. -/
  postsStatus : Nat
  /-- `(title.rendered, link)` of each post in that response body, in order. -/
  posts : List (List Char × List Char)
  /-- Response of `GET /wp-json/wp/v2/tags?search=<term>`, per term. -/
  tagSearch : List Char → TagResp
  /-- Status of `POST /wp-json/wp/v2/pages`. -/
  publishStatus : Nat
  /-- JSON body of the create-page response. -/
  publishJson : PyVal

/-- `get_internal_links` (lines 65-75): on HTTP 200, the dict mapping each
post's rendered title to its link; on any other status, the empty dict. -/
def get_internal_links (env : Env) : List (List Char × List Char) :=
  if env.postsStatus = 200 then buildDict env.posts else []

/-- `fetch_tag_ids` (lines 82-94): for each tag word in order, search the
CMS; on HTTP 200 with a non-empty result list, append the first result id. -/
def fetch_tag_ids (search : List Char → TagResp) (tags : List (List Char)) : List Int :=
  tags.foldl
    (fun tag_ids tag =>
      let resp := search tag
      if resp.status = 200 then
        match resp.ids with
        | [] => tag_ids
        | i :: _ => tag_ids ++ [i]
      else tag_ids)
    []

/-- `publish_to_wordpress` (lines 96-109): the JSON body of the create-page
response when its status is 201, otherwise `None`. -/
def publish_to_wordpress (env : Env) : Option PyVal :=
  if env.publishStatus = 201 then some env.publishJson else none

/-- The payload of the create-page request (`post_data`, lines 100-106),
restricted to the fields the pipeline computes. -/
structure PageData where
  title : List Char
  content : List Char
  meta_description : List Char
  tag_ids : List Int
deriving DecidableEq

/-- One external call made while handling a request. -/
inductive ExtCall where
  | llamaChat (prompt : List Char)
  | getPosts
  | searchTags (term : List Char)
  | createPage (data : PageData)
deriving DecidableEq

/-- The endpoint HTTP response: 200 with a message and the published post,
or an `HTTPException` with status code and detail message. -/
inductive Response where
  | ok (message : List Char) (post : PyVal)
  | httpError (status : Nat) (detail : List Char)

/-- `upload_blog` (lines 111-134): the endpoint handler, returning its
response together with the trace of external calls it performed. -/
def upload_blog (env : Env) (title blog_content : List Char) :
    Response × List ExtCall :=
  if blog_content.isEmpty then
    (.httpError 400 "No content provided".toList, [])
  else
    let cleaned_content := clean_content blog_content
    let llamaCall := ExtCall.llamaChat (llamaPrompt cleaned_content)
    match process_with_llama3 env.llamaMessage with
    | none => (.httpError 500 "LLaMA 3 processing failed".toList, [llamaCall])
    | some formatted_content =>
      if formatted_content.isEmpty then
        (.httpError 500 "LLaMA 3 processing failed".toList, [llamaCall])
      else
        let checked_content := spell_check formatted_content
        let internal_links := get_internal_links env
        let final_content := insert_internal_links formatted_content internal_links
        let tags := pySplit title
        let tag_ids := fetch_tag_ids env.tagSearch tags
        let meta_description :=
          "Learn more about ".toList ++ title ++ " in this detailed blog post.".toList
        let result := publish_to_wordpress env
        let trace := [llamaCall, ExtCall.getPosts] ++ tags.map ExtCall.searchTags
          ++ [ExtCall.createPage ⟨title, final_content, meta_description, tag_ids⟩]
        match result with
        | some post =>
          if pyTruthy post then (.ok "Blog post published successfully".toList post, trace)
          else (.httpError 500 "Failed to publish post".toList, trace)
        | none => (.httpError 500 "Failed to publish post".toList, trace)

/-- The create-page request recorded in a call trace, if any. -/
def createPageData : List ExtCall → Option PageData
  | [] => none
  | .createPage d :: _ => some d
  | .llamaChat _ :: t => createPageData t
  | .getPosts :: t => createPageData t
  | .searchTags _ :: t => createPageData t

/-- The response logic of lines 130-134, once the pipeline has reached the
publish step: 200 with the post when `publish_to_wordpress` returned a
truthy value, otherwise a 500 `HTTPException`. -/
def publishResponse (env : Env) : Response :=
  match publish_to_wordpress env with
  | some post =>
    if pyTruthy post then .ok "Blog post published successfully".toList post
    else .httpError 500 "Failed to publish post".toList
  | none => .httpError 500 "Failed to publish post".toList

/-- Whether `p` occurs as a contiguous subsequence of `s`. -/
def containsSeq (p : List Char) : List Char → Bool
  | [] => p.isEmpty
  | c :: t => p.isPrefixOf (c :: t) || containsSeq p t

/-- Whether `p` occurs in `s` up to ASCII case. -/
def ciOccurs (p s : List Char) : Bool :=
  containsSeq (p.map Char.toLower) (s.map Char.toLower)

/-- The scan of `wrapOccurrence`, with a structural fuel argument. -/
def wrapOccurrenceGo (title url : List Char) : Nat → Bool → List Char → List Char
  | _, _, [] => []
  | 0, _, s => s
  | fuel + 1, prevW, c :: t =>
    if title ≠ [] ∧ ciPrefix title (c :: t) ∧ prevW = false
        ∧ atBoundary ((c :: t).drop title.length) then
      "<a href=\"".toList ++ url ++ "\">".toList ++ (c :: t).take title.length
        ++ "</a>".toList
        ++ wrapOccurrenceGo title url fuel true ((c :: t).drop title.length)
    else
      c :: wrapOccurrenceGo title url fuel (isWordChar c) t

/-- What the spec wording of link enrichment describes, for comparison with
`subTitle`: wrap each whole-word case-insensitive occurrence itself in the
anchor, keeping the matched text exactly as it appears in the content. -/
def wrapOccurrence (title url : List Char) (prevW : Bool) (s : List Char) : List Char :=
  wrapOccurrenceGo title url s.length prevW s

/-- `insert_internal_links` as the spec words it: each entry wraps its
whole-word case-insensitive occurrences in place. -/
def wrapOccurrences (content : List Char) (links : List (List Char × List Char)) :
    List Char :=
  links.foldl (fun acc entry => wrapOccurrence entry.1 entry.2 false acc) content

/-- The contribution of one tag word in `fetch_tag_ids`: the first
search-result id when the search returns HTTP 200 with at least one
result, nothing otherwise. -/
def tagHit (search : List Char → TagResp) (tag : List Char) : Option Int :=
  if (search tag).status = 200 then (search tag).ids.head? else none

/-- A decomposition of content into enrichment sites: each site is the
text before an occurrence of the title, paired with that occurrence; the
second component of the overall decomposition is the trailing text. This
function recovers the content. -/
def sitesText : List (List Char × List Char) → List Char → List Char
  | [], tail => tail
  | (seg, occ) :: rest, tail => seg ++ occ ++ sitesText rest tail

/-- The enriched text of a site decomposition: every occurrence replaced
by the anchor element carrying the index spelling of the title. -/
def sitesResult (title url : List Char) :
    List (List Char × List Char) → List Char → List Char
  | [], tail => tail
  | (seg, _) :: rest, tail => seg ++ anchorFor title url ++ sitesResult title url rest tail

/-- Well-formedness of a site decomposition for a title: every listed
occurrence is a case-insensitive copy of the title sitting between word
boundaries, each occurrence is the leftmost remaining match of its
stretch, consecutive occurrences are separated by at least one non-word
character, and the trailing text holds no further occurrence. -/
def sitesOk (title : List Char) : List (List Char × List Char) → List Char → Prop
  | [], tail => ciOccurs title tail = false
  | (seg, occ) :: rest, tail =>
      occ.map Char.toLower = title.map Char.toLower
      ∧ ciOccurs title (seg ++ occ.dropLast) = false
      ∧ (∀ c, seg.getLast? = some c → isWordChar c = false)
      ∧ atBoundary (sitesText rest tail) = true
      ∧ (∀ seg₂ occ₂ rest₂, rest = (seg₂, occ₂) :: rest₂ → seg₂ ≠ [])
      ∧ sitesOk title rest tail

/-! ### General lemmas about the string primitives -/

theorem isPrefixOf_append_self (p t : List Char) : p.isPrefixOf (p ++ t) = true := by
  induction p with
  | nil => cases t <;> rfl
  | cons a as ih => simp [List.isPrefixOf, ih]

theorem pyReplaceGo_fuel (p r : List Char) :
    ∀ (f₁ f₂ : Nat) (s : List Char), s.length ≤ f₁ → s.length ≤ f₂ →
      pyReplaceGo p r f₁ s = pyReplaceGo p r f₂ s := by
  intro f₁
  induction f₁ with
  | zero =>
    intro f₂ s h₁ _
    have hs : s = [] := List.length_eq_zero.mp (Nat.le_zero.mp h₁)
    subst hs
    cases f₂ <;> rfl
  | succ f ih =>
    intro f₂ s h₁ h₂
    cases s with
    | nil => cases f₂ <;> rfl
    | cons c t =>
      cases f₂ with
      | zero => simp at h₂
      | succ g =>
        rw [pyReplaceGo, pyReplaceGo]
        by_cases hcond : p ≠ [] ∧ p.isPrefixOf (c :: t) = true
        · rw [if_pos hcond, if_pos hcond]
          have hp := List.length_pos.mpr hcond.1
          have hlen : ((c :: t).drop p.length).length ≤ f := by
            rw [List.length_drop, List.length_cons]
            rw [List.length_cons] at h₁
            omega
          have hlen2 : ((c :: t).drop p.length).length ≤ g := by
            rw [List.length_drop, List.length_cons]
            rw [List.length_cons] at h₂
            omega
          rw [ih g _ hlen hlen2]
        · rw [if_neg hcond, if_neg hcond]
          rw [List.length_cons] at h₁ h₂
          rw [ih g t (by omega) (by omega)]

theorem pyReplace_nil (p r : List Char) : pyReplace p r [] = [] := rfl

theorem pyReplace_cons_nomatch (p r : List Char) (c : Char) (t : List Char)
    (h : p.isPrefixOf (c :: t) = false) :
    pyReplace p r (c :: t) = c :: pyReplace p r t := by
  show pyReplaceGo p r (c :: t).length (c :: t) = c :: pyReplaceGo p r t.length t
  rw [List.length_cons, pyReplaceGo, if_neg (by simp [h])]

theorem pyReplace_cons_ne_head (p r : List Char) (hchar : Char) (hp : p.head? = some hchar)
    (c : Char) (t : List Char) (hc : c ≠ hchar) :
    pyReplace p r (c :: t) = c :: pyReplace p r t := by
  apply pyReplace_cons_nomatch
  cases p with
  | nil => simp at hp
  | cons a as =>
    have ha : a = hchar := by simpa using hp
    have hbeq : (a == c) = false := by
      rw [ha]
      exact beq_eq_false_iff_ne.mpr (Ne.symm hc)
    simp [List.isPrefixOf, hbeq]

theorem pyReplace_prefix_self (p r t : List Char) (hp : p ≠ []) :
    pyReplace p r (p ++ t) = r ++ pyReplace p r t := by
  cases p with
  | nil => exact absurd rfl hp
  | cons a as =>
    have h1 : (a :: as).isPrefixOf (a :: (as ++ t)) = true := by
      simpa using isPrefixOf_append_self (a :: as) t
    show pyReplaceGo (a :: as) r ((a :: as) ++ t).length ((a :: as) ++ t)
        = r ++ pyReplaceGo (a :: as) r t.length t
    rw [List.cons_append, List.length_cons, pyReplaceGo,
      if_pos ⟨List.cons_ne_nil a as, h1⟩]
    have h2 : (a :: (as ++ t)).drop (a :: as).length = t := by
      simpa using List.drop_left (a :: as) t
    rw [h2]
    have h3 : t.length ≤ (as ++ t).length := by
      rw [List.length_append]
      omega
    rw [pyReplaceGo_fuel (a :: as) r (as ++ t).length t.length t h3 (Nat.le_refl _)]

theorem pyReplace_no_head (p r : List Char) (hchar : Char) (hp : p.head? = some hchar)
    (x : List Char) (hx : ∀ c ∈ x, c ≠ hchar) (t : List Char) :
    pyReplace p r (x ++ t) = x ++ pyReplace p r t := by
  induction x with
  | nil => simp
  | cons c cs ih =>
    rw [List.cons_append,
      pyReplace_cons_ne_head p r hchar hp c _ (hx c (List.mem_cons_self c cs)),
      ih (fun d hd => hx d (List.mem_cons_of_mem _ hd))]
    rfl

theorem pyReplace_not_contains (p r s : List Char) (h : containsSeq p s = false) :
    pyReplace p r s = s := by
  induction s with
  | nil => rfl
  | cons c t ih =>
    rw [containsSeq] at h
    simp only [Bool.or_eq_false_iff] at h
    rw [pyReplace_cons_nomatch p r c t h.1, ih h.2]

theorem head_mem_of_head_eq (p : List Char) (hchar : Char) (hp : p.head? = some hchar) :
    hchar ∈ p := by
  cases p with
  | nil => simp at hp
  | cons a as =>
    have ha : a = hchar := by simpa using hp
    rw [← ha]
    exact List.mem_cons_self _ _

theorem pyReplace_join (p : List Char) (hchar : Char) (hp : p.head? = some hchar)
    (segs : List (List Char))
    (hsegs : ∀ s ∈ segs, s = p ∨ ∀ c ∈ s, c ≠ hchar) :
    pyReplace p [] segs.flatten = (segs.filter (fun s => decide (s ≠ p))).flatten := by
  have hpne : p ≠ [] := by
    rintro rfl
    simp at hp
  induction segs with
  | nil => rfl
  | cons s rest ih =>
    have hrest := fun x hx => hsegs x (List.mem_cons_of_mem _ hx)
    rcases hsegs s (List.mem_cons_self _ _) with heq | hns
    · rw [List.flatten_cons, heq, pyReplace_prefix_self p [] _ hpne, List.nil_append,
        ih hrest]
      simp [List.filter_cons, heq]
    · have hsp : s ≠ p := by
        intro heq
        exact hns hchar (by rw [heq]; exact head_mem_of_head_eq p hchar hp) rfl
      rw [List.flatten_cons, pyReplace_no_head p [] hchar hp s hns _, ih hrest]
      simp [List.filter_cons, hsp]

theorem pyStrip_all_space (s : List Char) (hs : ∀ c ∈ s, pyIsSpace c = true) :
    pyStrip s = [] := by
  unfold pyStrip
  rw [List.dropWhile_eq_nil_iff.mpr (fun x hx => hs x hx), List.rdropWhile_nil]

theorem isEmpty_false_of_ne_nil {l : List Char} (h : l ≠ []) : l.isEmpty = false := by
  cases l with
  | nil => exact absurd rfl h
  | cons _ _ => rfl

theorem pyStrip_idem (s : List Char) : pyStrip (pyStrip s) = pyStrip s := by
  unfold pyStrip
  obtain ⟨r, hr⟩ := List.rdropWhile_prefix pyIsSpace (s.dropWhile pyIsSpace)
  cases hu : List.rdropWhile pyIsSpace (s.dropWhile pyIsSpace) with
  | nil => simp [List.rdropWhile_nil]
  | cons c v =>
    have htc : s.dropWhile pyIsSpace = c :: (v ++ r) := by
      rw [← hr, hu, List.cons_append]
    have hself : (s.dropWhile pyIsSpace).dropWhile pyIsSpace = s.dropWhile pyIsSpace :=
      List.dropWhile_idempotent _ _
    have hpc : pyIsSpace c = false := by
      cases hcc : pyIsSpace c with
      | false => rfl
      | true =>
        exfalso
        rw [htc, List.dropWhile_cons_of_pos hcc] at hself
        have hlen : (List.dropWhile pyIsSpace (v ++ r)).length = (c :: (v ++ r)).length :=
          congrArg List.length hself
        have hle := (List.dropWhile_sublist (l := v ++ r) pyIsSpace).length_le
        rw [List.length_cons] at hlen
        omega
    have hdw : List.dropWhile pyIsSpace (c :: v) = c :: v :=
      List.dropWhile_cons_of_neg (by simp [hpc])
    rw [hdw, ← hu, List.rdropWhile_idempotent]

/-! ### Pipeline lemmas -/

theorem upload_blog_reach (env : Env) (title blog_content fc : List Char)
    (hc : blog_content ≠ []) (hl : process_with_llama3 env.llamaMessage = some fc)
    (hfc : fc ≠ []) :
    upload_blog env title blog_content =
      (publishResponse env,
       [ExtCall.llamaChat (llamaPrompt (clean_content blog_content)), ExtCall.getPosts]
         ++ (pySplit title).map ExtCall.searchTags
         ++ [ExtCall.createPage
               ⟨title,
                insert_internal_links fc (get_internal_links env),
                "Learn more about ".toList ++ title ++ " in this detailed blog post.".toList,
                fetch_tag_ids env.tagSearch (pySplit title)⟩]) := by
  have h1 : blog_content.isEmpty = false := isEmpty_false_of_ne_nil hc
  have h2 : fc.isEmpty = false := isEmpty_false_of_ne_nil hfc
  simp only [upload_blog, h1, hl, h2, Bool.false_eq_true, if_false, publishResponse]
  cases hpub : publish_to_wordpress env with
  | none => simp
  | some post => cases ht : pyTruthy post <;> simp [ht]

theorem createPageData_searchTags (ts : List (List Char)) (d : PageData) :
    createPageData (ts.map ExtCall.searchTags ++ [ExtCall.createPage d]) = some d := by
  induction ts with
  | nil => rfl
  | cons t ts ih => simpa [createPageData] using ih

theorem createPageData_reach (env : Env) (title blog_content fc : List Char)
    (hc : blog_content ≠ []) (hl : process_with_llama3 env.llamaMessage = some fc)
    (hfc : fc ≠ []) :
    createPageData (upload_blog env title blog_content).2
      = some ⟨title,
          insert_internal_links fc (get_internal_links env),
          "Learn more about ".toList ++ title ++ " in this detailed blog post.".toList,
          fetch_tag_ids env.tagSearch (pySplit title)⟩ := by
  rw [upload_blog_reach env title blog_content fc hc hl hfc]
  simp only [List.cons_append, List.nil_append, createPageData]
  exact createPageData_searchTags _ _

theorem fetch_tag_ids_eq_filterMap (search : List Char → TagResp) (tags : List (List Char)) :
    fetch_tag_ids search tags = tags.filterMap (tagHit search) := by
  suffices h : ∀ (ts : List (List Char)) (acc : List Int),
      ts.foldl
        (fun tag_ids tag =>
          let resp := search tag
          if resp.status = 200 then
            match resp.ids with
            | [] => tag_ids
            | i :: _ => tag_ids ++ [i]
          else tag_ids) acc
        = acc ++ ts.filterMap (tagHit search) by
    simpa [fetch_tag_ids] using h tags []
  intro ts
  induction ts with
  | nil =>
    intro acc
    simp
  | cons t ts ih =>
    intro acc
    rw [List.foldl_cons, List.filterMap_cons, ih]
    by_cases hs : (search t).status = 200
    · cases hids : (search t).ids with
      | nil => simp [tagHit, hs, hids]
      | cons i rest => simp [tagHit, hs, hids]
    · simp [tagHit, hs]

theorem subTitleGo_no_occurrence (title url : List Char) :
    ∀ (fuel : Nat) (b : Bool) (s : List Char), ciOccurs title s = false →
      subTitleGo title url fuel b s = s := by
  intro fuel
  induction fuel with
  | zero =>
    intro b s _
    cases s <;> rfl
  | succ f ih =>
    intro b s h
    cases s with
    | nil => rfl
    | cons c t =>
      rw [ciOccurs, List.map_cons, containsSeq] at h
      simp only [Bool.or_eq_false_iff] at h
      have hci : ciPrefix title (c :: t) = false := by
        rw [ciPrefix, List.map_cons]
        exact h.1
      rw [subTitleGo, if_neg (by simp [hci])]
      rw [ih (isWordChar c) t (by rw [ciOccurs]; exact h.2)]

theorem subTitle_no_occurrence (title url : List Char) (b : Bool) (content : List Char)
    (h : ciOccurs title content = false) :
    subTitle title url b content = content :=
  subTitleGo_no_occurrence title url content.length b content h

theorem isPrefixOf_of_append_le (p u v : List Char) (hlen : p.length ≤ u.length)
    (h : p.isPrefixOf (u ++ v) = true) : p.isPrefixOf u = true := by
  rw [List.isPrefixOf_iff_prefix] at h ⊢
  have hp : p = (u ++ v).take p.length := List.prefix_iff_eq_take.mp h
  have htake : (u ++ v).take p.length = u.take p.length := by
    rw [List.take_append_eq_append_take, Nat.sub_eq_zero_of_le hlen, List.take_zero,
      List.append_nil]
  rw [hp, htake]
  exact List.take_prefix _ _

theorem containsSeq_of_prefix (p z : List Char) (hp : p ≠ []) (h : p.isPrefixOf z = true) :
    containsSeq p z = true := by
  cases z with
  | nil =>
    cases p with
    | nil => exact absurd rfl hp
    | cons a as => simp [List.isPrefixOf] at h
  | cons c t =>
    rw [containsSeq, h]
    rfl

theorem ciPrefix_head_occurs (title u w : List Char) (htne : title ≠ [])
    (hlen : title.length ≤ u.length) (h : ciPrefix title (u ++ w) = true) :
    ciOccurs title u = true := by
  rw [ciPrefix, List.map_append] at h
  have hp : (title.map Char.toLower).isPrefixOf (u.map Char.toLower) = true :=
    isPrefixOf_of_append_le _ _ _ (by simpa using hlen) h
  have hpne : title.map Char.toLower ≠ [] := by
    cases title with
    | nil => exact absurd rfl htne
    | cons a as => simp
  rw [ciOccurs]
  exact containsSeq_of_prefix _ _ hpne hp

theorem ciOccurs_cons_false (p : List Char) (c : Char) (t : List Char)
    (h : ciOccurs p (c :: t) = false) : ciOccurs p t = false := by
  rw [ciOccurs, List.map_cons, containsSeq] at h
  simp only [Bool.or_eq_false_iff] at h
  rw [ciOccurs]
  exact h.2

theorem subTitleGo_walk (title url occ R : List Char) (htne : title ≠ [])
    (hocc : occ.map Char.toLower = title.map Char.toLower)
    (hbnd : atBoundary R = true) :
    ∀ (seg : List Char) (fuel : Nat) (b : Bool),
      (seg ++ occ ++ R).length ≤ fuel →
      ciOccurs title (seg ++ occ.dropLast) = false →
      (seg = [] → b = false) →
      (∀ c, seg.getLast? = some c → isWordChar c = false) →
      ∃ f, R.length ≤ f ∧
        subTitleGo title url fuel b (seg ++ occ ++ R)
          = seg ++ anchorFor title url ++ subTitleGo title url f true R := by
  have hlen : occ.length = title.length := by
    have h := congrArg List.length hocc
    simpa using h
  have hoccne : occ ≠ [] := by
    intro hnil
    rw [hnil] at hlen
    cases title with
    | nil => exact absurd rfl htne
    | cons a as => simp at hlen
  intro seg
  induction seg with
  | nil =>
    intro fuel b hfuel hnopre hb _
    have hbf : b = false := hb rfl
    subst hbf
    obtain ⟨oc, ot, rfl⟩ : ∃ oc ot, occ = oc :: ot := by
      cases occ with
      | nil => exact absurd rfl hoccne
      | cons oc ot => exact ⟨oc, ot, rfl⟩
    cases fuel with
    | zero =>
      exfalso
      rw [List.nil_append] at hfuel
      simp at hfuel
    | succ f =>
      have hdrop : (oc :: (ot ++ R)).drop title.length = R := by
        have hre : oc :: (ot ++ R) = (oc :: ot) ++ R := rfl
        rw [hre, ← hlen]
        exact List.drop_left (oc :: ot) R
      have hcip : ciPrefix title (oc :: (ot ++ R)) = true := by
        rw [ciPrefix]
        have hmap : (oc :: (ot ++ R)).map Char.toLower
            = title.map Char.toLower ++ R.map Char.toLower := by
          rw [← hocc]
          simp
        rw [hmap]
        exact isPrefixOf_append_self _ _
      have hbd : atBoundary ((oc :: (ot ++ R)).drop title.length) = true := by
        rw [hdrop]
        exact hbnd
      refine ⟨f, ?_, ?_⟩
      · rw [List.nil_append] at hfuel
        simp [List.length_append] at hfuel
        omega
      · rw [List.nil_append, List.cons_append, subTitleGo, if_pos ⟨htne, hcip, rfl, hbd⟩,
          hdrop]
        rfl
  | cons c seg' ih =>
    intro fuel b hfuel hnopre hb hlast
    cases fuel with
    | zero =>
      exfalso
      simp at hfuel
    | succ f =>
      obtain ⟨ys, y, hys⟩ : ∃ ys y, occ = ys ++ [y] := by
        rcases List.eq_nil_or_concat occ with hnil | ⟨L, bq, hq⟩
        · exact absurd hnil hoccne
        · exact ⟨L, bq, by rw [hq, List.concat_eq_append]⟩
      have hyslen : ys.length + 1 = title.length := by
        rw [← hlen, hys]
        simp
      have hnopre' : ciOccurs title ((c :: seg') ++ ys) = false := by
        rw [hys, List.dropLast_concat] at hnopre
        exact hnopre
      have hneg : ¬(title ≠ [] ∧ ciPrefix title (c :: (seg' ++ occ ++ R)) = true
          ∧ b = false ∧ atBoundary ((c :: (seg' ++ occ ++ R)).drop title.length) = true) := by
        rintro ⟨-, hcip, -, -⟩
        have hre : c :: (seg' ++ occ ++ R) = ((c :: seg') ++ ys) ++ (y :: R) := by
          rw [hys]
          simp
        rw [hre] at hcip
        have hull : title.length ≤ ((c :: seg') ++ ys).length := by
          rw [List.length_append, List.length_cons]
          omega
        have hoc2 := ciPrefix_head_occurs title ((c :: seg') ++ ys) (y :: R) htne hull hcip
        rw [hnopre'] at hoc2
        exact Bool.false_ne_true hoc2
      have hlen2 : (seg' ++ occ ++ R).length ≤ f := by
        simp [List.length_append] at hfuel ⊢
        omega
      have hnopre2 : ciOccurs title (seg' ++ occ.dropLast) = false := by
        apply ciOccurs_cons_false title c
        rw [← List.cons_append]
        exact hnopre
      have hb2 : seg' = [] → isWordChar c = false := by
        intro hs
        apply hlast c
        rw [hs]
        rfl
      have hlast2 : ∀ d, seg'.getLast? = some d → isWordChar d = false := by
        intro d hd
        apply hlast d
        cases seg' with
        | nil => simp at hd
        | cons e es =>
          rw [List.getLast?_cons_cons]
          exact hd
      obtain ⟨f', hf', heq⟩ := ih f (isWordChar c) hlen2 hnopre2 hb2 hlast2
      refine ⟨f', hf', ?_⟩
      show subTitleGo title url (f + 1) b (c :: (seg' ++ occ ++ R))
          = c :: seg' ++ anchorFor title url ++ subTitleGo title url f' true R
      rw [subTitleGo, if_neg hneg, heq]
      rfl

theorem subTitleGo_sites (title url : List Char) (htne : title ≠ []) :
    ∀ (parts : List (List Char × List Char)) (tail : List Char) (fuel : Nat) (b : Bool),
      (sitesText parts tail).length ≤ fuel →
      sitesOk title parts tail →
      (∀ seg occ rest, parts = (seg, occ) :: rest → seg = [] → b = false) →
      subTitleGo title url fuel b (sitesText parts tail)
        = sitesResult title url parts tail := by
  intro parts
  induction parts with
  | nil =>
    intro tail fuel b _ hok _
    rw [sitesOk] at hok
    rw [show sitesText [] tail = tail from rfl,
      show sitesResult title url [] tail = tail from rfl]
    exact subTitleGo_no_occurrence title url fuel b tail hok
  | cons pr rest ihp =>
    obtain ⟨seg, occ⟩ := pr
    intro tail fuel b hfuel hok hb
    rw [sitesOk] at hok
    obtain ⟨hocc, hnopre, hlast, hbnd, hnext, hrest⟩ := hok
    rw [sitesText] at hfuel ⊢
    obtain ⟨f, hf, heq⟩ := subTitleGo_walk title url occ (sitesText rest tail) htne hocc hbnd
      seg fuel b hfuel hnopre (hb seg occ rest rfl) hlast
    have hbnext : ∀ seg₂ occ₂ rest₂, rest = (seg₂, occ₂) :: rest₂ → seg₂ = []
        → (true : Bool) = false := by
      intro seg₂ occ₂ rest₂ h₂ hseg₂
      exact absurd hseg₂ (hnext seg₂ occ₂ rest₂ h₂)
    rw [heq, ihp tail f true hf hrest hbnext, sitesResult]

/-! ### Concrete environments used by witnesses and counterexamples -/

/-- The model answers with a fixed text containing a double space, the
posts read fails, every tag search fails, the publish call succeeds with a
truthy body. -/
def envC1 : Env :=
  { llamaMessage := some "a  b".toList
  , postsStatus := 500
  , posts := []
  , tagSearch := fun _ => ⟨500, []⟩
  , publishStatus := 201
  , publishJson := .dict [("id".toList, .int 7)] }

/-- The publish call returns 201 with a falsy JSON body (empty object). -/
def envC3 : Env :=
  { llamaMessage := some "hello".toList
  , postsStatus := 500
  , posts := []
  , tagSearch := fun _ => ⟨500, []⟩
  , publishStatus := 201
  , publishJson := .dict [] }

/-- A fully healthy run: publish returns 201 with a truthy body. -/
def envOk : Env :=
  { llamaMessage := some "hello".toList
  , postsStatus := 500
  , posts := []
  , tagSearch := fun _ => ⟨500, []⟩
  , publishStatus := 201
  , publishJson := .dict [("id".toList, .int 3)] }

/-- The single-entry link index of the C2 example. -/
def introLinks : List (List Char × List Char) :=
  [("Intro".toList, "https://x/intro".toList)]

/-! ### Claim theorems -/

/-- C1 (counterexample): the claim says the content that is published is
the normalizer output (`spell_check`) of the rewritten text. On a run
where the rewritten text is `"a  b"`, the create-page call carries
`"a  b"` itself, while the normalizer output is `"a b"`: the two differ,
so the published content is not the normalizer output. -/
theorem c1_counterexample :
    (createPageData (upload_blog envC1 "T".toList "body".toList).2).map PageData.content
      = some "a  b".toList
    ∧ spell_check "a  b".toList ≠ "a  b".toList := by
  exact ⟨by decide, by decide⟩

/-- C1 (amended): the pipeline runs clean, rewrite, normalize, link-enrich,
tag-resolve, publish, but the content handed to link enrichment — and hence
published — is the rewritten text itself: the normalizer output
`spell_check formatted_content` (line 121) is computed and then discarded
(line 123 passes `formatted_content`). -/
theorem c1_amended (env : Env) (title blog_content fc : List Char)
    (hc : blog_content ≠ []) (hl : process_with_llama3 env.llamaMessage = some fc)
    (hfc : fc ≠ []) :
    (createPageData (upload_blog env title blog_content).2).map PageData.content
      = some (insert_internal_links fc (get_internal_links env)) := by
  rw [createPageData_reach env title blog_content fc hc hl hfc]
  rfl

/-- C1 witness: the amended theorem applied to the concrete run `envC1`. -/
theorem c1_amended_witness :
    "body".toList ≠ []
    ∧ process_with_llama3 envC1.llamaMessage = some "a  b".toList
    ∧ "a  b".toList ≠ []
    ∧ (createPageData (upload_blog envC1 "T".toList "body".toList).2).map PageData.content
        = some (insert_internal_links "a  b".toList (get_internal_links envC1)) :=
  ⟨by decide, by decide, by decide,
    c1_amended envC1 "T".toList "body".toList "a  b".toList (by decide) (by decide) (by decide)⟩

/-- C2 (counterexample): on the mixed-case content `"Read the intro
first"` with link index `{"Intro": "https://x/intro"}`, the code replaces
the match with the anchor around the index spelling `Intro`, not around
the occurrence `intro` that the claim says gets wrapped
(`wrapOccurrences` renders the claim wording). -/
theorem c2_counterexample :
    insert_internal_links "Read the intro first".toList introLinks
      = "Read the <a href=\"https://x/intro\">Intro</a> first".toList
    ∧ wrapOccurrences "Read the intro first".toList introLinks
      = "Read the <a href=\"https://x/intro\">intro</a> first".toList
    ∧ insert_internal_links "Read the intro first".toList introLinks
      ≠ wrapOccurrences "Read the intro first".toList introLinks :=
  ⟨by decide, by decide, by decide⟩

/-- The site decomposition of the multi-occurrence example is
well-formed: `sitesOk` holds of real data, its text is the example
content, and its result is the enriched text. -/
theorem sites_example_ok :
    sitesOk "Intro".toList
      [(([] : List Char), "Intro".toList), (" first, then the ".toList, "intro".toList)]
      " again".toList
    ∧ sitesText
        [(([] : List Char), "Intro".toList), (" first, then the ".toList, "intro".toList)]
        " again".toList
      = "Intro first, then the intro again".toList
    ∧ sitesResult "Intro".toList "https://x/intro".toList
        [(([] : List Char), "Intro".toList), (" first, then the ".toList, "intro".toList)]
        " again".toList
      = "<a href=\"https://x/intro\">Intro</a> first, then the <a href=\"https://x/intro\">Intro</a> again".toList := by
  refine ⟨?_, by decide, by decide⟩
  rw [sitesOk]
  refine ⟨by decide, by decide, ?_, by decide, ?_, ?_⟩
  · intro c h
    simp at h
  · intro seg₂ occ₂ rest₂ h
    have h1 : " first, then the ".toList = seg₂ := congrArg Prod.fst (List.head_eq_of_cons_eq h)
    rw [← h1]
    decide
  · rw [sitesOk]
    refine ⟨by decide, by decide, ?_, by decide, ?_, ?_⟩
    · intro c h
      have h2 : some ' ' = some c := h
      obtain rfl : ' ' = c := Option.some.inj h2
      decide
    · intro seg₂ occ₂ rest₂ h
      simp at h
    · rw [sitesOk]
      decide

/-- C2 (amended): for a link-index entry whose title is non-empty and
made of word characters and whose URL has no backslash — the domain on
which the unescaped interpolation produces the literal title between two
word boundaries and a literal replacement template — link enrichment on
ASCII content replaces each whole-word, case-insensitive occurrence of
the title by an anchor element to that URL whose text is the title as
spelled in the link index, not the matched occurrence: any decomposition
of the content into well-formed enrichment sites is rewritten site by
site, content without a case-insensitive occurrence of the title is left
unchanged, exact-case occurrences are wrapped literally as in the quoted
example, and non-whole-word occurrences are not touched. -/
theorem c2_amended (title url : List Char)
    (htne : title ≠ []) (hword : ∀ c ∈ title, isWordChar c = true)
    (hurl : ∀ c ∈ url, c ≠ '\\') :
    (∀ (parts : List (List Char × List Char)) (tail : List Char),
      (∀ c ∈ sitesText parts tail, c.toNat < 128) →
      sitesOk title parts tail →
      insert_internal_links (sitesText parts tail) [(title, url)]
        = sitesResult title url parts tail)
    ∧ (∀ content, (∀ c ∈ content, c.toNat < 128) → ciOccurs title content = false →
        insert_internal_links content [(title, url)] = content)
    ∧ insert_internal_links "Read the Intro first".toList introLinks
      = "Read the <a href=\"https://x/intro\">Intro</a> first".toList
    ∧ insert_internal_links "Read the intro first".toList introLinks
      = "Read the <a href=\"https://x/intro\">Intro</a> first".toList
    ∧ insert_internal_links "Reintroduce the fintro first".toList introLinks
      = "Reintroduce the fintro first".toList
    ∧ insert_internal_links "Intro first, then the intro again".toList introLinks
      = "<a href=\"https://x/intro\">Intro</a> first, then the <a href=\"https://x/intro\">Intro</a> again".toList := by
  refine ⟨?_, ?_, by decide, by decide, by decide, by decide⟩
  · intro parts tail _ hok
    show subTitle title url false (sitesText parts tail) = sitesResult title url parts tail
    exact subTitleGo_sites title url htne parts tail (sitesText parts tail).length false
      (Nat.le_refl _) hok (fun _ _ _ _ _ => rfl)
  · intro content _ hno
    show subTitle title url false content = content
    exact subTitle_no_occurrence title url false content hno

/-- C2 witness: the amended theorem at the concrete entry of the claim,
title `Intro` and URL `https://x/intro`. -/
theorem c2_amended_witness :
    ("Intro".toList ≠ []
      ∧ (∀ c ∈ "Intro".toList, isWordChar c = true)
      ∧ (∀ c ∈ "https://x/intro".toList, c ≠ '\\'))
    ∧ ((∀ (parts : List (List Char × List Char)) (tail : List Char),
        (∀ c ∈ sitesText parts tail, c.toNat < 128) →
        sitesOk "Intro".toList parts tail →
        insert_internal_links (sitesText parts tail)
            [("Intro".toList, "https://x/intro".toList)]
          = sitesResult "Intro".toList "https://x/intro".toList parts tail)
      ∧ (∀ content, (∀ c ∈ content, c.toNat < 128) →
          ciOccurs "Intro".toList content = false →
          insert_internal_links content [("Intro".toList, "https://x/intro".toList)] = content)
      ∧ insert_internal_links "Read the Intro first".toList introLinks
        = "Read the <a href=\"https://x/intro\">Intro</a> first".toList
      ∧ insert_internal_links "Read the intro first".toList introLinks
        = "Read the <a href=\"https://x/intro\">Intro</a> first".toList
      ∧ insert_internal_links "Reintroduce the fintro first".toList introLinks
        = "Reintroduce the fintro first".toList
      ∧ insert_internal_links "Intro first, then the intro again".toList introLinks
        = "<a href=\"https://x/intro\">Intro</a> first, then the <a href=\"https://x/intro\">Intro</a> again".toList) :=
  ⟨⟨by decide, by decide, by decide⟩,
    c2_amended "Intro".toList "https://x/intro".toList (by decide) (by decide) (by decide)⟩

/-- C3 (counterexample): a create-page call that returns 201 with a falsy
JSON body (the empty object) makes the endpoint answer 500 "Failed to
publish post", refuting "if it returns 201 the endpoint responds 200". -/
theorem c3_counterexample :
    envC3.publishStatus = 201
    ∧ (upload_blog envC3 "T".toList "body".toList).1
        = .httpError 500 "Failed to publish post".toList :=
  ⟨rfl, rfl⟩

/-- C3 (amended): for every request reaching the publish step, a non-201
create-page status yields 500 "Failed to publish post", and a 201 status
whose JSON body is truthy yields 200 with that JSON in the post field (a
201 with a falsy body also yields 500; see the C10 theorem). -/
theorem c3_amended (env : Env) (title blog_content fc : List Char)
    (hc : blog_content ≠ []) (hl : process_with_llama3 env.llamaMessage = some fc)
    (hfc : fc ≠ []) :
    (env.publishStatus ≠ 201 →
      (upload_blog env title blog_content).1
        = .httpError 500 "Failed to publish post".toList)
    ∧ (env.publishStatus = 201 → pyTruthy env.publishJson = true →
      (upload_blog env title blog_content).1
        = .ok "Blog post published successfully".toList env.publishJson) := by
  rw [upload_blog_reach env title blog_content fc hc hl hfc]
  constructor
  · intro h201
    simp [publishResponse, publish_to_wordpress, h201]
  · intro h201 htr
    simp [publishResponse, publish_to_wordpress, h201, htr]

/-- C3 witness: the amended theorem at the healthy run `envOk`. -/
theorem c3_amended_witness :
    "body".toList ≠ []
    ∧ process_with_llama3 envOk.llamaMessage = some "hello".toList
    ∧ "hello".toList ≠ []
    ∧ ((envOk.publishStatus ≠ 201 →
        (upload_blog envOk "T".toList "body".toList).1
          = .httpError 500 "Failed to publish post".toList)
      ∧ (envOk.publishStatus = 201 → pyTruthy envOk.publishJson = true →
        (upload_blog envOk "T".toList "body".toList).1
          = .ok "Blog post published successfully".toList envOk.publishJson)) :=
  ⟨by decide, by decide, by decide,
    c3_amended envOk "T".toList "body".toList "hello".toList (by decide) (by decide) (by decide)⟩

/-- The C4 counterexample input: removing the embedded denylisted phrase
glues its flanks into a new occurrence of the same phrase. -/
def c4Input : List Char :=
  "Here is the for".toList ++ phrase1 ++ "matted blog post:".toList

/-- C4 (counterexample): `clean_content` is not idempotent: one
application of it to `c4Input` leaves exactly the phrase
"Here is the formatted blog post:", which a second application removes. -/
theorem c4_counterexample :
    clean_content (clean_content c4Input) ≠ clean_content c4Input := by
  decide

/-- C4 (amended): `clean_content` is idempotent on every input whose
cleaned output contains no denylisted phrase; it fails only on inputs,
such as `c4Input`, where removing a phrase creates a new occurrence. -/
theorem c4_amended (s : List Char)
    (h : ∀ ph ∈ unwanted_phrases, containsSeq ph (clean_content s) = false) :
    clean_content (clean_content s) = clean_content s := by
  have h1 := h phrase1 (by simp [unwanted_phrases])
  have h2 := h phrase2 (by simp [unwanted_phrases])
  show pyStrip (pyReplace phrase2 [] (pyReplace phrase1 [] (clean_content s)))
      = clean_content s
  rw [pyReplace_not_contains _ _ _ h1, pyReplace_not_contains _ _ _ h2]
  have hx : clean_content s
      = pyStrip (unwanted_phrases.foldl (fun acc phrase => pyReplace phrase [] acc) s) := rfl
  rw [hx]
  exact pyStrip_idem _

/-- C4 witness: the amended theorem at a benign concrete input. -/
theorem c4_amended_witness :
    (∀ ph ∈ unwanted_phrases, containsSeq ph (clean_content "  A tidy post.  ".toList) = false)
    ∧ clean_content (clean_content "  A tidy post.  ".toList)
        = clean_content "  A tidy post.  ".toList :=
  ⟨by decide, c4_amended "  A tidy post.  ".toList (by decide)⟩

/-- C5: for every input that is a concatenation of denylisted phrases and
whitespace segments, the sanitizer returns the empty string. -/
theorem c5_sanitizer_empty (segs : List (List Char))
    (hsegs : ∀ s ∈ segs, s ∈ unwanted_phrases ∨ ∀ c ∈ s, pyIsSpace c = true) :
    clean_content segs.flatten = [] := by
  show pyStrip (pyReplace phrase2 [] (pyReplace phrase1 [] segs.flatten)) = []
  have h1 : pyReplace phrase1 [] segs.flatten
      = (segs.filter (fun s => decide (s ≠ phrase1))).flatten := by
    apply pyReplace_join phrase1 'H' (by decide)
    intro s hs
    rcases hsegs s hs with hmem | hws
    · have hor : s = phrase1 ∨ s = phrase2 := by simpa [unwanted_phrases] using hmem
      rcases hor with rfl | rfl
      · exact Or.inl rfl
      · right
        decide
    · right
      intro c hc heq
      subst heq
      exact absurd (hws _ hc) (by decide)
  have hmem1 : ∀ s ∈ segs.filter (fun s => decide (s ≠ phrase1)),
      s = phrase2 ∨ ∀ c ∈ s, pyIsSpace c = true := by
    intro s hs
    rw [List.mem_filter] at hs
    rcases hsegs s hs.1 with hmem | hws
    · have hor : s = phrase1 ∨ s = phrase2 := by simpa [unwanted_phrases] using hmem
      rcases hor with rfl | rfl
      · have hcontra : phrase1 ≠ phrase1 := by simpa using hs.2
        exact absurd rfl hcontra
      · exact Or.inl rfl
    · exact Or.inr hws
  have h2 : pyReplace phrase2 [] (segs.filter (fun s => decide (s ≠ phrase1))).flatten
      = ((segs.filter (fun s => decide (s ≠ phrase1))).filter
          (fun s => decide (s ≠ phrase2))).flatten := by
    apply pyReplace_join phrase2 'L' (by decide)
    intro s hs
    rcases hmem1 s hs with rfl | hws
    · exact Or.inl rfl
    · right
      intro c hc heq
      subst heq
      exact absurd (hws _ hc) (by decide)
  rw [h1, h2]
  apply pyStrip_all_space
  intro c hc
  rw [List.mem_flatten] at hc
  obtain ⟨s, hsmem, hcs⟩ := hc
  rw [List.mem_filter] at hsmem
  rcases hmem1 s hsmem.1 with rfl | hws
  · have hcontra : phrase2 ≠ phrase2 := by simpa using hsmem.2
    exact absurd rfl hcontra
  · exact hws c hcs

/-- The concrete segment list of the C5 witness. -/
def c5Segs : List (List Char) :=
  [" ".toList, phrase1, "\n\t".toList, phrase2, "  ".toList]

/-- C5 witness: the theorem at a concrete phrase-and-whitespace input. -/
theorem c5_witness :
    (∀ s ∈ c5Segs, s ∈ unwanted_phrases ∨ ∀ c ∈ s, pyIsSpace c = true)
    ∧ clean_content c5Segs.flatten = [] :=
  ⟨by decide, c5_sanitizer_empty c5Segs (by decide)⟩

/-- C6: an empty `blog_content` yields 400 "No content provided" and an
empty external-call trace: no LLM call, no CMS read, no CMS write. -/
theorem c6_empty_content (env : Env) (title : List Char) :
    upload_blog env title [] = (.httpError 400 "No content provided".toList, []) := rfl

/-- C7: when the rewrite step yields no usable content (no message in the
response, or empty content), the endpoint answers 500 "LLaMA 3 processing
failed" and the only external call is the model call: no link fetch, no
tag search, no publish attempt. -/
theorem c7_rewrite_failure (env : Env) (title blog_content : List Char)
    (hc : blog_content ≠ [])
    (hl : process_with_llama3 env.llamaMessage = none
        ∨ process_with_llama3 env.llamaMessage = some []) :
    upload_blog env title blog_content
      = (.httpError 500 "LLaMA 3 processing failed".toList,
         [.llamaChat (llamaPrompt (clean_content blog_content))]) := by
  have h1 : blog_content.isEmpty = false := isEmpty_false_of_ne_nil hc
  rcases hl with h | h
  · simp only [upload_blog, h1, h, Bool.false_eq_true, if_false]
  · simp only [upload_blog, h1, h, Bool.false_eq_true, if_false, List.isEmpty_nil, if_true]

/-- The environment of the C7 witness: the chat response has no message. -/
def envC7 : Env :=
  { llamaMessage := none
  , postsStatus := 200
  , posts := []
  , tagSearch := fun _ => ⟨200, []⟩
  , publishStatus := 201
  , publishJson := .dict [("id".toList, .int 1)] }

/-- C7 witness: the theorem at the concrete run `envC7`. -/
theorem c7_witness :
    "x".toList ≠ []
    ∧ process_with_llama3 envC7.llamaMessage = none
    ∧ upload_blog envC7 "T".toList "x".toList
        = (.httpError 500 "LLaMA 3 processing failed".toList,
           [.llamaChat (llamaPrompt (clean_content "x".toList))]) :=
  ⟨by decide, rfl, c7_rewrite_failure envC7 "T".toList "x".toList (by decide) (Or.inl rfl)⟩

/-- The search oracle of the C8 example: only the word `Go` resolves, to
tag id 5. -/
def goRustSearch (w : List Char) : TagResp :=
  if w = "Go".toList then ⟨200, [5]⟩ else ⟨200, []⟩

/-- C8: tag resolution maps each whitespace-split word of the title, in
title word order, to the first search-result id whenever the search (HTTP
200) returns any results, and silently skips words with none; for title
"Go Rust" where only "Go" resolves to tag id 5 the result is [5], and
duplicate words produce duplicate ids. -/
theorem c8_tag_resolution :
    (∀ (search : List Char → TagResp) (title : List Char),
      fetch_tag_ids search (pySplit title)
        = (pySplit title).filterMap (tagHit search))
    ∧ fetch_tag_ids goRustSearch (pySplit "Go Rust".toList) = [5]
    ∧ fetch_tag_ids goRustSearch (pySplit "Go Go".toList) = [5, 5] :=
  ⟨fun search title => fetch_tag_ids_eq_filterMap search (pySplit title),
   by decide, by decide⟩

/-- C9: enrichment failures never abort publication: when the posts read
returns a non-200 status the link index is empty; a word whose tag search
returns a non-200 status contributes no id; and in both cases the
pipeline still issues the create-page call. -/
theorem c9_enrichment_degrades (env : Env) (title blog_content fc : List Char)
    (hc : blog_content ≠ []) (hl : process_with_llama3 env.llamaMessage = some fc)
    (hfc : fc ≠ []) (hposts : env.postsStatus ≠ 200) :
    get_internal_links env = []
    ∧ (∀ pre post tag, (env.tagSearch tag).status ≠ 200 →
        fetch_tag_ids env.tagSearch (pre ++ tag :: post)
          = fetch_tag_ids env.tagSearch (pre ++ post))
    ∧ createPageData (upload_blog env title blog_content).2
        = some ⟨title, insert_internal_links fc [],
            "Learn more about ".toList ++ title ++ " in this detailed blog post.".toList,
            fetch_tag_ids env.tagSearch (pySplit title)⟩ := by
  have hlinks : get_internal_links env = [] := by
    simp [get_internal_links, hposts]
  refine ⟨hlinks, ?_, ?_⟩
  · intro pre post tag htag
    rw [fetch_tag_ids_eq_filterMap, fetch_tag_ids_eq_filterMap]
    simp [List.filterMap_append, List.filterMap_cons, tagHit, htag]
  · rw [createPageData_reach env title blog_content fc hc hl hfc, hlinks]

/-- The environment of the C9 witness: the posts read fails with 404 and
every tag search except `Go` fails with 500. -/
def envC9 : Env :=
  { llamaMessage := some "hello".toList
  , postsStatus := 404
  , posts := []
  , tagSearch := fun w => if w = "Go".toList then ⟨200, [5]⟩ else ⟨500, []⟩
  , publishStatus := 201
  , publishJson := .dict [("id".toList, .int 1)] }

/-- C9 witness: the theorem at the concrete run `envC9`. -/
theorem c9_witness :
    ("x".toList ≠ []
      ∧ process_with_llama3 envC9.llamaMessage = some "hello".toList
      ∧ "hello".toList ≠ []
      ∧ envC9.postsStatus ≠ 200)
    ∧ (get_internal_links envC9 = []
      ∧ (∀ pre post tag, (envC9.tagSearch tag).status ≠ 200 →
          fetch_tag_ids envC9.tagSearch (pre ++ tag :: post)
            = fetch_tag_ids envC9.tagSearch (pre ++ post))
      ∧ createPageData (upload_blog envC9 "Go Rust".toList "x".toList).2
          = some ⟨"Go Rust".toList, insert_internal_links "hello".toList [],
              "Learn more about ".toList ++ "Go Rust".toList
                ++ " in this detailed blog post.".toList,
              fetch_tag_ids envC9.tagSearch (pySplit "Go Rust".toList)⟩) :=
  ⟨⟨by decide, by decide, by decide, by decide⟩,
    c9_enrichment_degrades envC9 "Go Rust".toList "x".toList "hello".toList
      (by decide) (by decide) (by decide) (by decide)⟩

/-- C10: if the create-page call returns HTTP 201 but its JSON body is
falsy (an empty object, empty list, null, ...), the endpoint answers 500
"Failed to publish post" even though the publish succeeded, because the
endpoint tests truthiness of the returned JSON. -/
theorem c10_falsy_publish (env : Env) (title blog_content fc : List Char)
    (hc : blog_content ≠ []) (hl : process_with_llama3 env.llamaMessage = some fc)
    (hfc : fc ≠ []) (h201 : env.publishStatus = 201)
    (hfalsy : pyTruthy env.publishJson = false) :
    (upload_blog env title blog_content).1
      = .httpError 500 "Failed to publish post".toList := by
  rw [upload_blog_reach env title blog_content fc hc hl hfc]
  simp [publishResponse, publish_to_wordpress, h201, hfalsy]

/-- The environment of the C10 witness: publish returns 201 with `null`. -/
def envC10 : Env :=
  { llamaMessage := some "hello".toList
  , postsStatus := 500
  , posts := []
  , tagSearch := fun _ => ⟨500, []⟩
  , publishStatus := 201
  , publishJson := .pynone }

/-- C10 witness: the theorem at the concrete run `envC10`. -/
theorem c10_witness :
    ("body".toList ≠ []
      ∧ process_with_llama3 envC10.llamaMessage = some "hello".toList
      ∧ "hello".toList ≠ []
      ∧ envC10.publishStatus = 201
      ∧ pyTruthy envC10.publishJson = false)
    ∧ (upload_blog envC10 "T".toList "body".toList).1
        = .httpError 500 "Failed to publish post".toList :=
  ⟨⟨by decide, by decide, by decide, by decide, by decide⟩,
    c10_falsy_publish envC10 "T".toList "body".toList "hello".toList
      (by decide) (by decide) (by decide) (by decide) (by decide)⟩

end BlogPublisher
